import Mathlib

/-!
Verification development for the LMIA-Tool repository.

The definitions below are a shallow embedding of the TypeScript source:
JavaScript strings are modelled as `String` / `List Char`, records with
optional fields as structures over `Option`, and the serverless webhook
handler as a pure function over an explicit request/environment model.
Character case conversion (`String.prototype.toLowerCase` and
`toUpperCase`) is modelled per code point by `jsLower` / `jsUpper`,
restricted to the ASCII letters and the accented Latin-1 letters admitted
by the source's city-name character class (for all of which lowercase and
uppercase code points differ by exactly 32); all other characters are
mapped to themselves, which agrees with JavaScript on every character
that can occur in the inputs the theorems quantify over.
-/

/-- Separator character used by `word.split` inside `normalizeCityName`
(an apostrophe, written by code point). -/
def apostChar : Char := Char.ofNat 39

/-- Code points of the uppercase letters recognized by the embedding:
ASCII `A`-`Z` plus the accented uppercase letters of the source's city
character class (À Â Ç È É Ê Î Ô Ù Û). -/
def upperP (n : Nat) : Prop :=
  (65 ≤ n ∧ n ≤ 90) ∨ n = 192 ∨ n = 194 ∨ n = 199 ∨ n = 200 ∨
    n = 201 ∨ n = 202 ∨ n = 206 ∨ n = 212 ∨ n = 217 ∨ n = 219

/-- Code points of the lowercase letters recognized by the embedding:
ASCII `a`-`z` plus à â ç è é ê î ô ù û. -/
def lowerP (n : Nat) : Prop :=
  (97 ≤ n ∧ n ≤ 122) ∨ n = 224 ∨ n = 226 ∨ n = 231 ∨ n = 232 ∨
    n = 233 ∨ n = 234 ∨ n = 238 ∨ n = 244 ∨ n = 249 ∨ n = 251

instance : DecidablePred upperP := fun n => by unfold upperP; infer_instance

instance : DecidablePred lowerP := fun n => by unfold lowerP; infer_instance

/-- Code points of the whitespace class used by `String.prototype.trim`
and the regex class `\s`, restricted to the common whitespace characters
(space, tab, line feed, vertical tab, form feed, carriage return,
no-break space). -/
def spaceP (n : Nat) : Prop :=
  n = 32 ∨ n = 9 ∨ n = 10 ∨ n = 11 ∨ n = 12 ∨ n = 13 ∨ n = 160

instance : DecidablePred spaceP := fun n => by unfold spaceP; infer_instance

/-- Per-character model of `String.prototype.toLowerCase`. -/
def jsLower (c : Char) : Char :=
  if upperP c.toNat then Char.ofNat (c.toNat + 32) else c

/-- Per-character model of `String.prototype.toUpperCase`. -/
def jsUpper (c : Char) : Char :=
  if lowerP c.toNat then Char.ofNat (c.toNat - 32) else c

/-- Whitespace test used by the `trim` and regex models. -/
def jsSpace (c : Char) : Bool := decide (spaceP c.toNat)

/-- Lowercasing a character list (model of `s.toLowerCase()`). -/
def mapLower (l : List Char) : List Char := l.map jsLower

/-- Model of `String.prototype.trim`: drop whitespace from both ends. -/
def listTrim (l : List Char) : List Char :=
  ((l.dropWhile jsSpace).reverse.dropWhile jsSpace).reverse

/-- Prefix test on raw character lists, used to build the
`String.prototype.includes` model. -/
def startsWithList : List Char → List Char → Bool
  | [], _ => true
  | _ :: _, [] => false
  | a :: as, b :: bs => a = b && startsWithList as bs

/-- Model of `hay.includes(needle)` for JavaScript strings. -/
def hasSub (needle : List Char) : List Char → Bool
  | [] => needle.isEmpty
  | c :: t => startsWithList needle (c :: t) || hasSub needle t

theorem char_toNat_ofNat (n : Nat) (h : n.isValidChar) : (Char.ofNat n).toNat = n := by
  unfold Char.ofNat
  rw [dif_pos h]
  unfold Char.ofNatAux Char.toNat
  simp [UInt32.toNat, BitVec.toNat_ofNatLt]

theorem char_eq_iff_toNat (a b : Char) : a = b ↔ a.toNat = b.toNat := by
  constructor
  · intro h; rw [h]
  · intro h; exact Char.ext (UInt32.ext h)

theorem toNat_jsLower_of_upper {c : Char} (h : upperP c.toNat) :
    (jsLower c).toNat = c.toNat + 32 := by
  unfold jsLower
  rw [if_pos h]
  refine char_toNat_ofNat _ (Or.inl ?_)
  unfold upperP at h
  omega

theorem jsLower_of_not_upper {c : Char} (h : ¬ upperP c.toNat) : jsLower c = c := by
  unfold jsLower
  rw [if_neg h]

theorem toNat_jsUpper_of_lower {c : Char} (h : lowerP c.toNat) :
    (jsUpper c).toNat = c.toNat - 32 := by
  unfold jsUpper
  rw [if_pos h]
  refine char_toNat_ofNat _ (Or.inl ?_)
  unfold lowerP at h
  omega

theorem jsUpper_of_not_lower {c : Char} (h : ¬ lowerP c.toNat) : jsUpper c = c := by
  unfold jsUpper
  rw [if_neg h]

theorem jsLower_jsUpper (c : Char) : jsLower (jsUpper c) = jsLower c := by
  by_cases h : lowerP c.toNat
  · have hu := toNat_jsUpper_of_lower h
    have hup : upperP (jsUpper c).toNat := by
      rw [hu]; unfold lowerP at h; unfold upperP; omega
    have hnotup : ¬ upperP c.toNat := by
      unfold lowerP at h; unfold upperP; omega
    rw [char_eq_iff_toNat, toNat_jsLower_of_upper hup, jsLower_of_not_upper hnotup, hu]
    unfold lowerP at h
    omega
  · rw [jsUpper_of_not_lower h]

theorem jsLower_jsLower (c : Char) : jsLower (jsLower c) = jsLower c := by
  by_cases h : upperP c.toNat
  · have hl := toNat_jsLower_of_upper h
    have hnot : ¬ upperP (jsLower c).toNat := by
      rw [hl]; unfold upperP at h ⊢; omega
    rw [jsLower_of_not_upper hnot]
  · rw [jsLower_of_not_upper h, jsLower_of_not_upper h]

theorem jsLower_eq_space_iff (c : Char) : jsLower c = ' ' ↔ c = ' ' := by
  have hsp : (' ' : Char).toNat = 32 := by decide
  by_cases h : upperP c.toNat
  · rw [char_eq_iff_toNat, char_eq_iff_toNat, toNat_jsLower_of_upper h, hsp]
    unfold upperP at h
    omega
  · rw [jsLower_of_not_upper h]

theorem jsLower_eq_apost_iff (c : Char) : jsLower c = apostChar ↔ c = apostChar := by
  have hap : apostChar.toNat = 39 := by decide
  by_cases h : upperP c.toNat
  · rw [char_eq_iff_toNat, char_eq_iff_toNat, toNat_jsLower_of_upper h, hap]
    unfold upperP at h
    omega
  · rw [jsLower_of_not_upper h]

theorem jsSpace_jsLower (c : Char) : jsSpace (jsLower c) = jsSpace c := by
  by_cases h : upperP c.toNat
  · unfold jsSpace
    rw [decide_eq_decide, toNat_jsLower_of_upper h]
    unfold upperP at h
    unfold spaceP
    omega
  · rw [jsLower_of_not_upper h]

/-- Model of `s.split(sep)` for a single-character separator: JavaScript
`split` keeps empty segments, and splitting the empty string yields one
empty segment. -/
def splitCh (sep : Char) : List Char → List (List Char)
  | [] => [[]]
  | c :: t =>
    if c = sep then [] :: splitCh sep t
    else
      match splitCh sep t with
      | [] => [[c]]
      | w :: ws => (c :: w) :: ws

/-- Model of `parts.join(sep)` for a single-character separator. -/
def joinCh (sep : Char) : List (List Char) → List Char
  | [] => []
  | [w] => w
  | w :: ws => w ++ sep :: joinCh sep ws

theorem splitCh_ne_nil (sep : Char) (l : List Char) : splitCh sep l ≠ [] := by
  cases l with
  | nil => simp [splitCh]
  | cons c t =>
    unfold splitCh
    by_cases h : c = sep
    · simp [h]
    · rw [if_neg h]
      cases splitCh sep t <;> simp

theorem joinCh_splitCh (sep : Char) (l : List Char) : joinCh sep (splitCh sep l) = l := by
  induction l with
  | nil => rfl
  | cons c t ih =>
    unfold splitCh
    by_cases h : c = sep
    · rw [if_pos h]
      obtain ⟨w, ws, hws⟩ : ∃ w ws, splitCh sep t = w :: ws := by
        cases hs : splitCh sep t with
        | nil => exact absurd hs (splitCh_ne_nil sep t)
        | cons w ws => exact ⟨w, ws, rfl⟩
      rw [hws]
      show [] ++ sep :: joinCh sep (w :: ws) = c :: t
      rw [← hws, ih, h]
      rfl
    · rw [if_neg h]
      cases hs : splitCh sep t with
      | nil => exact absurd hs (splitCh_ne_nil sep t)
      | cons w ws =>
        cases ws with
        | nil =>
          show c :: w = c :: t
          rw [← ih, hs]
          rfl
        | cons w2 ws2 =>
          show (c :: w) ++ sep :: joinCh sep (w2 :: ws2) = c :: t
          rw [← ih, hs]
          rfl

theorem mapLower_joinCh (sep : Char) (hsep : jsLower sep = sep) (ws : List (List Char)) :
    mapLower (joinCh sep ws) = joinCh sep (ws.map mapLower) := by
  induction ws with
  | nil => rfl
  | cons w ws ih =>
    cases ws with
    | nil => rfl
    | cons w2 ws2 =>
      show mapLower (w ++ sep :: joinCh sep (w2 :: ws2)) =
        mapLower w ++ sep :: joinCh sep ((w2 :: ws2).map mapLower)
      rw [← ih]
      simp [mapLower, hsep]

theorem splitCh_mapLower (sep : Char) (hsep : ∀ c, jsLower c = sep ↔ c = sep)
    (l : List Char) : splitCh sep (mapLower l) = (splitCh sep l).map mapLower := by
  induction l with
  | nil => rfl
  | cons c t ih =>
    show splitCh sep (jsLower c :: mapLower t) = (splitCh sep (c :: t)).map mapLower
    unfold splitCh
    by_cases h : c = sep
    · rw [if_pos ((hsep c).mpr h), if_pos h, List.map_cons, ih]
      rfl
    · rw [if_neg (fun hc => h ((hsep c).mp hc)), if_neg h, ih]
      cases hs : splitCh sep t with
      | nil => exact absurd hs (splitCh_ne_nil sep t)
      | cons w ws => simp [mapLower]

theorem mapLower_mapLower (l : List Char) : mapLower (mapLower l) = mapLower l := by
  simp [mapLower, Function.comp, jsLower_jsLower]

/-- Model of `word.charAt(0).toUpperCase() + word.slice(1)`. -/
def capFirst : List Char → List Char
  | [] => []
  | c :: t => jsUpper c :: t

/-- Transformation applied to each space-separated word inside
`normalizeCityName`: fixed abbreviations, apostrophe compounds
(capitalize only the segment before the first apostrophe), else plain
title-casing of the word. -/
def normWord (w : List Char) : List Char :=
  if w = ("st").data then ("St").data
  else if w = ("ste").data then ("Ste").data
  else if w = ("mt").data then ("Mt").data
  else if w = ("ft").data then ("Ft").data
  else
    match splitCh apostChar w with
    | [] => capFirst w
    | [_] => capFirst w
    | p :: ps => joinCh apostChar (capFirst p :: ps)

/-- The source's `CITY_CORRECTIONS` table, applied to the trimmed city
string by exact match (model of `if (CITY_CORRECTIONS[c]) c = ...`). -/
def applyCityCorrections (c : List Char) : List Char :=
  if c = ("Abbottsford").data then ("Abbotsford").data
  else if c = ("Abortsford").data then ("Abbotsford").data
  else if c = ("Vancouve").data then ("Vancouver").data
  else if c = ("Toront").data then ("Toronto").data
  else if c = ("Montreal").data then ("Montréal").data
  else if c = ("Quebec").data then ("Québec").data
  else c

/-- Exact-key membership in the `CITY_CORRECTIONS` table. -/
def isCorrectionKey (c : List Char) : Bool :=
  c = ("Abbottsford").data || c = ("Abortsford").data || c = ("Vancouve").data ||
  c = ("Toront").data || c = ("Montreal").data || c = ("Quebec").data

/-- List-level model of `normalizeCityName`: trim, apply the correction
table, lowercase, split on spaces, transform each word, join. -/
def normalizeCityList (l : List Char) : List Char :=
  joinCh ' '
    ((splitCh ' ' (mapLower (applyCityCorrections (listTrim l)))).map normWord)

/-- Model of the source's `normalizeCityName`. -/
def normalizeCityName (city : String) : String :=
  String.mk (normalizeCityList city.data)

theorem mapLower_capFirst (w : List Char) : mapLower (capFirst w) = mapLower w := by
  cases w with
  | nil => rfl
  | cons c t =>
    show jsLower (jsUpper c) :: mapLower t = jsLower c :: mapLower t
    rw [jsLower_jsUpper]

theorem mapLower_normWord (w : List Char) : mapLower (normWord w) = mapLower w := by
  unfold normWord
  by_cases h1 : w = ("st").data
  · rw [if_pos h1, h1]; rfl
  rw [if_neg h1]
  by_cases h2 : w = ("ste").data
  · rw [if_pos h2, h2]; rfl
  rw [if_neg h2]
  by_cases h3 : w = ("mt").data
  · rw [if_pos h3, h3]; rfl
  rw [if_neg h3]
  by_cases h4 : w = ("ft").data
  · rw [if_pos h4, h4]; rfl
  rw [if_neg h4]
  cases hs : splitCh apostChar w with
  | nil => exact mapLower_capFirst w
  | cons p ps =>
    cases ps with
    | nil => exact mapLower_capFirst w
    | cons p2 ps2 =>
      have hap : jsLower apostChar = apostChar := (jsLower_eq_apost_iff apostChar).mpr rfl
      rw [mapLower_joinCh apostChar hap, List.map_cons, mapLower_capFirst,
        ← List.map_cons mapLower p (p2 :: ps2), ← mapLower_joinCh apostChar hap,
        ← hs, joinCh_splitCh]

theorem listTrim_eq_rdrop (l : List Char) :
    listTrim l = List.rdropWhile jsSpace (List.dropWhile jsSpace l) := rfl

theorem dropWhile_head?_false (p : Char → Bool) (l : List Char) :
    ∀ a, (l.dropWhile p).head? = some a → p a = false := by
  induction l with
  | nil => intro a h; simp [List.dropWhile] at h
  | cons c t ih =>
    intro a h
    rw [List.dropWhile_cons] at h
    by_cases hc : p c = true
    · rw [if_pos hc] at h
      exact ih a h
    · rw [if_neg hc] at h
      simp only [List.head?_cons, Option.some.injEq] at h
      rw [← h]
      exact Bool.eq_false_iff.mpr hc

/-- The character list has no leading and no trailing whitespace. -/
def noEdgeSpace (x : List Char) : Prop :=
  (∀ a ∈ x.head?, jsSpace a = false) ∧ ∀ a ∈ x.getLast?, jsSpace a = false

theorem listTrim_eq_self_of (x : List Char) (h : noEdgeSpace x) : listTrim x = x := by
  obtain ⟨h1, h2⟩ := h
  have hd : List.dropWhile jsSpace x = x := by
    cases x with
    | nil => rfl
    | cons a t =>
      have ha := h1 a (by simp)
      rw [List.dropWhile_cons, if_neg (by simp [ha])]
  have hr : List.rdropWhile jsSpace x = x := by
    rw [List.rdropWhile_eq_self_iff]
    intro hl
    have := h2 (x.getLast hl) (by rw [Option.mem_def, List.getLast?_eq_getLast x hl])
    simp [this]
  rw [listTrim_eq_rdrop, hd, hr]

theorem noEdgeSpace_listTrim (l : List Char) : noEdgeSpace (listTrim l) := by
  rw [listTrim_eq_rdrop]
  constructor
  · intro a ha
    obtain ⟨t, ht⟩ := List.rdropWhile_prefix jsSpace (List.dropWhile jsSpace l)
    cases hE : List.rdropWhile jsSpace (List.dropWhile jsSpace l) with
    | nil => rw [hE] at ha; simp at ha
    | cons b bs =>
      rw [hE] at ha
      simp only [List.head?_cons, Option.mem_def, Option.some.injEq] at ha
      rw [hE] at ht
      apply dropWhile_head?_false jsSpace l
      rw [← ht, ← ha]
      rfl
  · intro a ha
    cases hE : List.rdropWhile jsSpace (List.dropWhile jsSpace l) with
    | nil => rw [hE] at ha; simp at ha
    | cons b bs =>
      have hne : List.rdropWhile jsSpace (List.dropWhile jsSpace l) ≠ [] := by
        rw [hE]; simp
      have hlast := List.rdropWhile_last_not jsSpace (List.dropWhile jsSpace l) hne
      rw [List.getLast?_eq_getLast _ hne] at ha
      simp only [Option.mem_def, Option.some.injEq] at ha
      rw [ha] at hlast
      exact Bool.eq_false_iff.mpr hlast

theorem head?_mapLower (x : List Char) : (mapLower x).head? = x.head?.map jsLower := by
  cases x <;> rfl

theorem getLast?_mapLower (x : List Char) :
    (mapLower x).getLast? = x.getLast?.map jsLower := by
  rw [← List.head?_reverse, ← List.head?_reverse]
  rw [show (mapLower x).reverse = mapLower x.reverse by simp [mapLower]]
  exact head?_mapLower x.reverse

theorem noEdgeSpace_of_mapLower_eq {r c : List Char} (h : mapLower r = mapLower c)
    (hc : noEdgeSpace c) : noEdgeSpace r := by
  obtain ⟨h1, h2⟩ := hc
  constructor
  · intro a ha
    have hh : r.head?.map jsLower = c.head?.map jsLower := by
      rw [← head?_mapLower, ← head?_mapLower, h]
    rw [Option.mem_def] at ha
    rw [ha] at hh
    cases hch : c.head? with
    | none => rw [hch] at hh; exact absurd hh (by simp)
    | some d =>
      rw [hch] at hh
      simp only [Option.map_some', Option.some.injEq] at hh
      have hd := h1 d (by rw [Option.mem_def, hch])
      rw [← jsSpace_jsLower a, hh, jsSpace_jsLower d]
      exact hd
  · intro a ha
    have hh : r.getLast?.map jsLower = c.getLast?.map jsLower := by
      rw [← getLast?_mapLower, ← getLast?_mapLower, h]
    rw [Option.mem_def] at ha
    rw [ha] at hh
    cases hch : c.getLast? with
    | none => rw [hch] at hh; exact absurd hh (by simp)
    | some d =>
      rw [hch] at hh
      simp only [Option.map_some', Option.some.injEq] at hh
      have hd := h2 d (by rw [Option.mem_def, hch])
      rw [← jsSpace_jsLower a, hh, jsSpace_jsLower d]
      exact hd

theorem noEdgeSpace_applyCorr (l : List Char) :
    noEdgeSpace (applyCityCorrections (listTrim l)) := by
  unfold applyCityCorrections
  split_ifs <;>
    first
    | exact noEdgeSpace_listTrim l
    | constructor <;> intro a ha <;> simp_all <;> subst ha <;> decide

theorem mapLower_normalizeCityList (l : List Char) :
    mapLower (normalizeCityList l) =
      mapLower (applyCityCorrections (listTrim l)) := by
  unfold normalizeCityList
  have hsp : jsLower ' ' = ' ' := (jsLower_eq_space_iff ' ').mpr rfl
  rw [mapLower_joinCh ' ' hsp, List.map_map]
  have hmap :
      List.map (mapLower ∘ normWord)
        (splitCh ' ' (mapLower (applyCityCorrections (listTrim l)))) =
      List.map mapLower
        (splitCh ' ' (mapLower (applyCityCorrections (listTrim l)))) :=
    List.map_congr_left (fun w _ => mapLower_normWord w)
  rw [hmap, ← mapLower_joinCh ' ' hsp, joinCh_splitCh, mapLower_mapLower]

theorem applyCityCorrections_of_not_key {c : List Char}
    (h : isCorrectionKey c = false) : applyCityCorrections c = c := by
  unfold isCorrectionKey at h
  simp only [Bool.or_eq_false_iff, decide_eq_false_iff_not] at h
  unfold applyCityCorrections
  rw [if_neg h.1.1.1.1.1, if_neg h.1.1.1.1.2, if_neg h.1.1.1.2, if_neg h.1.1.2,
    if_neg h.1.2, if_neg h.2]

theorem normalizeCityList_idem (l : List Char)
    (hk : isCorrectionKey (normalizeCityList l) = false) :
    normalizeCityList (normalizeCityList l) = normalizeCityList l := by
  have hB := mapLower_normalizeCityList l
  have hEdge : noEdgeSpace (normalizeCityList l) :=
    noEdgeSpace_of_mapLower_eq hB (noEdgeSpace_applyCorr l)
  have hA : listTrim (normalizeCityList l) = normalizeCityList l :=
    listTrim_eq_self_of _ hEdge
  rw [show normalizeCityList (normalizeCityList l) =
      joinCh ' '
        ((splitCh ' '
          (mapLower (applyCityCorrections (listTrim (normalizeCityList l))))).map
          normWord) from rfl]
  rw [hA, applyCityCorrections_of_not_key hk, hB]
  rfl

/-- Model of the regex word-character class `\w` (`[A-Za-z0-9_]`). -/
def wordChar (c : Char) : Bool :=
  decide ((65 ≤ c.toNat ∧ c.toNat ≤ 90) ∨ (97 ≤ c.toNat ∧ c.toNat ≤ 122) ∨
    (48 ≤ c.toNat ∧ c.toNat ≤ 57) ∨ c.toNat = 95)

/-- Accumulator pass collecting maximal `\w`-runs of a string. -/
def runsAux : List Char → List Char → List (List Char)
  | [], cur => if cur.isEmpty then [] else [cur.reverse]
  | c :: t, cur =>
    if wordChar c then runsAux t (c :: cur)
    else if cur.isEmpty then runsAux t [] else cur.reverse :: runsAux t []

/-- Maximal `\w`-runs of a string.  A regex alternative consisting only of
word characters and wrapped in `\b...\b` matches somewhere in the string
iff one of these runs equals it. -/
def wordRuns (l : List Char) : List (List Char) := runsAux l []

/-- Consume one optional occurrence of the character `c` (model of a
regex `c?`). -/
def afterOpt (c : Char) : List Char → List Char
  | [] => []
  | x :: t => if x = c then t else x :: t

/-- A word boundary `\b` holds after a word character at this position:
end of string or a non-word character. -/
def boundaryEnd : List Char → Bool
  | [] => true
  | c :: _ => !wordChar c

/-- Case-insensitive literal match: strip the (lowercase) pattern from the
front of the input, returning the rest on success. -/
def stripLow : List Char → List Char → Option (List Char)
  | [], l => some l
  | _ :: _, [] => none
  | p :: ps, c :: cs => if jsLower c = p then stripLow ps cs else none

/-- Matcher for the alternative `p\.?o\.?\s*box` (case-insensitive) at the
start of the list, including the trailing `\b`. -/
def poBoxMatch (l : List Char) : Bool :=
  match l with
  | [] => false
  | p :: rest =>
    if jsLower p = 'p' then
      match afterOpt '.' rest with
      | [] => false
      | o :: rest2 =>
        if jsLower o = 'o' then
          match (afterOpt '.' rest2).dropWhile jsSpace with
          | b :: o2 :: x :: rest4 =>
            if jsLower b = 'b' ∧ jsLower o2 = 'o' ∧ jsLower x = 'x' then
              boundaryEnd rest4
            else false
          | _ => false
        else false
    else false

/-- Matcher for the alternative `r\.?r\.?\s*\d+` (case-insensitive) at the
start of the list, including the trailing `\b`. -/
def rrMatch (l : List Char) : Bool :=
  match l with
  | [] => false
  | r1 :: rest =>
    if jsLower r1 = 'r' then
      match afterOpt '.' rest with
      | [] => false
      | r2 :: rest2 =>
        if jsLower r2 = 'r' then
          let r3 := (afterOpt '.' rest2).dropWhile jsSpace
          if (r3.takeWhile Char.isDigit).isEmpty then false
          else boundaryEnd (r3.dropWhile Char.isDigit)
        else false
    else false

/-- The directional words of the pattern
`\b(north|south|east|west|n|s|e|w|ne|nw|se|sw)\s+(of|at|and)\b`. -/
def dirWords : List (List Char) :=
  [("north").data, ("south").data, ("east").data, ("west").data,
   ("n").data, ("s").data, ("e").data, ("w").data,
   ("ne").data, ("nw").data, ("se").data, ("sw").data]

/-- The connective words of the directional pattern. -/
def dirTailWords : List (List Char) := [("of").data, ("at").data, ("and").data]

/-- Matcher for the directional pattern at the start of the list,
including the trailing `\b`. -/
def dirMatch (l : List Char) : Bool :=
  dirWords.any (fun d =>
    match stripLow d l with
    | none => false
    | some rest =>
      match rest with
      | [] => false
      | c :: _ =>
        jsSpace c &&
          dirTailWords.any (fun w =>
            match stripLow w (rest.dropWhile jsSpace) with
            | none => false
            | some r2 => boundaryEnd r2))

/-- Scan all positions of the list that satisfy the leading word boundary
`\b` (tracked by whether the previous character was a word character) and
test the positional matcher there. -/
def scanStarts (f : List Char → Bool) : Bool → List Char → Bool
  | _, [] => false
  | prevW, c :: t => (!prevW && f (c :: t)) || scanStarts f (wordChar c) t

/-- Word list of the street-suffix pattern in `isValidCityName`. -/
def bannedWords1 : List (List Char) :=
  [("street").data, ("st").data, ("avenue").data, ("ave").data, ("road").data,
   ("rd").data, ("drive").data, ("dr").data, ("boulevard").data, ("blvd").data,
   ("lane").data, ("ln").data, ("court").data, ("ct").data, ("way").data,
   ("wy").data, ("terrace").data, ("ter").data, ("place").data, ("pl").data]

/-- Simple-word part of the unit/building pattern in `isValidCityName`
(the `p\.?o\.?\s*box` and `r\.?r\.?\s*\d+` alternatives are handled by
their own matchers). -/
def bannedWords2 : List (List Char) :=
  [("unit").data, ("suite").data, ("apt").data, ("apartment").data,
   ("floor").data, ("fl").data, ("building").data, ("bldg").data,
   ("box").data, ("rr").data]

/-- ASCII uppercase test, the class `[A-Z]`. -/
def upperAZ (c : Char) : Bool := decide (65 ≤ c.toNat ∧ c.toNat ≤ 90)

/-- Model of `/^[A-Z]$/`. -/
def singleUpperTest (c : List Char) : Bool :=
  match c with
  | [u] => upperAZ u
  | _ => false

/-- Model of `/^[A-Z]\s+[A-Z]$/`. -/
def spacedUpperTest (c : List Char) : Bool :=
  match c with
  | u :: c2 :: t =>
    upperAZ u && jsSpace c2 &&
      (match (c2 :: t).dropWhile jsSpace with
       | [u2] => upperAZ u2
       | _ => false)
  | _ => false

/-- Model of `/^[A-Z]\.?\s*[A-Z]\.?$/`. -/
def initialsTest (c : List Char) : Bool :=
  match c with
  | [] => false
  | u :: rest =>
    upperAZ u &&
      (match (afterOpt '.' rest).dropWhile jsSpace with
       | u2 :: r3 => upperAZ u2 && (afterOpt '.' r3).isEmpty
       | [] => false)

/-- Character class of the city-name regex
`/^[a-zA-Z\s\-'éàèùâêîôûçÉÀÈÙÂÊÎÔÛÇ]+$/`: the recognized letters,
whitespace, hyphen and apostrophe. -/
def cityChar (c : Char) : Bool :=
  decide (upperP c.toNat) || decide (lowerP c.toNat) || jsSpace c ||
  decide (c.toNat = 45) || decide (c.toNat = 39)

/-- Disjunction of the `bannedPatterns` regex tests of `isValidCityName`. -/
def bannedPatternsTest (c : List Char) : Bool :=
  (wordRuns c).any (fun r => bannedWords1.contains (mapLower r)) ||
  (wordRuns c).any (fun r => bannedWords2.contains (mapLower r)) ||
  scanStarts poBoxMatch false c ||
  scanStarts rrMatch false c ||
  scanStarts dirMatch false c ||
  singleUpperTest c || spacedUpperTest c || initialsTest c

/-- Model of the source's `isValidCityName`: falsy check, trim, length
bounds, digit check, banned address patterns, character class, and
sentinel substrings, in source order. -/
def isValidCityName (city : String) : Bool :=
  if city.data.isEmpty then false
  else
    let c := listTrim city.data
    if decide (c.length < 3) || decide (40 < c.length) then false
    else if c.any Char.isDigit then false
    else if bannedPatternsTest c then false
    else if !(!c.isEmpty && c.all cityChar) then false
    else if hasSub (("Unknown").data) c || hasSub (("Not Specified").data) c ||
        hasSub (("N/A").data) c then false
    else true

/-- Model of the explorer's `LMIARecord` TypeScript type: every field is
optional, approval counts are integers (the data model documents them as
integers; `Number(...) || 0` coercion happens upstream). -/
structure LMIARecord where
  employerName : Option String
  city : Option String
  province : Option String
  programStream : Option String
  positiveLMIAs : Option Int
deriving DecidableEq

/-- Value of a nonempty ASCII digit string. -/
def digitsVal (l : List Char) : Nat :=
  l.foldl (fun acc ch => acc * 10 + (ch.toNat - 48)) 0

/-- Hexadecimal digit test `[0-9a-fA-F]`. -/
def jsHexDigit (c : Char) : Bool :=
  c.isDigit || decide ((97 ≤ c.toNat ∧ c.toNat ≤ 102) ∨ (65 ≤ c.toNat ∧ c.toNat ≤ 70))

/-- Value of one hexadecimal digit. -/
def hexVal (c : Char) : Nat :=
  if c.isDigit then c.toNat - 48
  else if 97 ≤ c.toNat then c.toNat - 87
  else c.toNat - 55

/-- Value of a nonempty hexadecimal digit string. -/
def hexNum (l : List Char) : Nat :=
  l.foldl (fun acc ch => acc * 16 + hexVal ch) 0

/-- Longest decimal-digit prefix, `none` when empty. -/
def decPart (l : List Char) : Option Nat :=
  if (l.takeWhile Char.isDigit).isEmpty then none
  else some (digitsVal (l.takeWhile Char.isDigit))

/-- Unsigned part of `parseInt` with automatic base detection: a `0x`/`0X`
prefix switches to hexadecimal, otherwise the longest decimal prefix is
taken; no digits yield `NaN` (`none`). -/
def parseUnsigned (l : List Char) : Option Nat :=
  match l with
  | '0' :: c :: t =>
    if c = 'x' ∨ c = 'X' then
      if (t.takeWhile jsHexDigit).isEmpty then none
      else some (hexNum (t.takeWhile jsHexDigit))
    else decPart ('0' :: c :: t)
  | _ => decPart l

/-- Model of JavaScript `parseInt(s)` (no explicit radix): skip leading
whitespace, optional sign, then the unsigned part; `none` models `NaN`. -/
def jsParseInt (s : String) : Option Int :=
  match s.data.dropWhile jsSpace with
  | [] => none
  | c :: t =>
    if c = '-' then (parseUnsigned t).map (fun n => -(n : Int))
    else if c = '+' then (parseUnsigned t).map (fun n => (n : Int))
    else (parseUnsigned (c :: t)).map (fun n => (n : Int))

/-- Model of `const minLMIAsNum = parseInt(minLMIAs) || 1`: `NaN` and `0`
are falsy, so both default to `1`. -/
def minLMIAsNum (s : String) : Int :=
  match jsParseInt s with
  | none => 1
  | some n => if n = 0 then 1 else n

/-- The filter predicate of the explorer's `filtered` memo, with the
source's early-return checks in order: province, city, stream, minimum
approvals, employer substring. -/
def recordPasses (employer province city stream : String) (minNum : Int)
    (r : LMIARecord) : Bool :=
  if province ≠ ("ALL") ∧ r.province ≠ some province then false
  else if city ≠ ("ALL") ∧ r.city ≠ some city then false
  else if stream ≠ ("ALL") ∧ r.programStream ≠ some stream then false
  else if r.positiveLMIAs.getD 0 < minNum then false
  else if listTrim employer.data ≠ [] ∧
      hasSub (mapLower (listTrim employer.data))
        (mapLower ((r.employerName.getD ("")).data)) = false then false
  else true

/-- Model of the explorer's `filtered` memo: parse the threshold once,
then filter the rows. -/
def filtered (rows : List LMIARecord)
    (employer province city stream minLMIAs : String) : List LMIARecord :=
  rows.filter (recordPasses employer province city stream (minLMIAsNum minLMIAs))

/-- Model of `Math.max(1, Math.ceil(filtered.length / rowsPerPage))` from
`part_004` (ceiling division written over naturals). -/
def totalPages (count rowsPerPage : Nat) : Nat :=
  max 1 ((count + rowsPerPage - 1) / rowsPerPage)

/-- Model of `Math.ceil(filtered.length / rowsPerPage)` from
`LMIAExplorer.tsx`, which lacks the `Math.max(1, ...)` guard. -/
def totalPagesTsx (count rowsPerPage : Nat) : Nat :=
  (count + rowsPerPage - 1) / rowsPerPage

/-- Model of `filtered.slice(startIndex, endIndex)` with
`startIndex = (currentPage - 1) * rowsPerPage` and
`endIndex = startIndex + rowsPerPage`. -/
def paginatedData (l : List LMIARecord) (rowsPerPage currentPage : Nat) :
    List LMIARecord :=
  (l.drop ((currentPage - 1) * rowsPerPage)).take rowsPerPage

/-- The page-size options offered by the explorer. -/
def rowsPerPageOptions : List Nat := [50, 100, 250, 500]

/-- The slice of explorer state touched by `handleMinLMIAsChange`. -/
structure ExplorerState where
  minLMIAs : String
  currentPage : Nat
deriving DecidableEq

/-- Initial explorer state: `useState("1")` and `useState(1)`. -/
def initialExplorerState : ExplorerState := { minLMIAs := ("1"), currentPage := 1 }

/-- Model of the regex test `/^\d+$/`: nonempty and all ASCII digits. -/
def isDigitStr (v : String) : Bool :=
  !v.data.isEmpty && v.data.all Char.isDigit

/-- Model of the source's `handleMinLMIAsChange`: accept the new value
only when it is empty or digit-only, and reset the page to 1. -/
def handleMinLMIAsChange (value : String) (st : ExplorerState) : ExplorerState :=
  if value = ("") ∨ isDigitStr value = true then
    { minLMIAs := value, currentPage := 1 }
  else st

/-- Stored user of the local-storage auth variant. -/
structure StoredUser where
  name : String
  email : String
  password : String
deriving DecidableEq

/-- Model of the local-storage `signup`: validation checks in source
order; on success the user is appended with trimmed name and
trimmed-lowercased email.  The first component is the returned error
message (`none` on success), the second the resulting stored user list. -/
def signup (name email password : String) (users : List StoredUser) :
    Option String × List StoredUser :=
  if listTrim name.data = [] then (some ("Name is required"), users)
  else if listTrim email.data = [] then (some ("Email is required"), users)
  else if password.length < 6 then
    (some ("Password must be at least 6 characters"), users)
  else if users.any (fun u => mapLower u.email.data = mapLower email.data) then
    (some ("An account with this email already exists"), users)
  else
    (none,
      users ++ [{ name := String.mk (listTrim name.data),
                  email := String.mk (mapLower (listTrim email.data)),
                  password := password }])

/-- The predicate of `users.find` inside the local-storage `login`:
case-insensitive email equality and exact password equality. -/
def loginPred (email password : String) (u : StoredUser) : Bool :=
  mapLower u.email.data = mapLower email.data && u.password = password

/-- Model of the local-storage `login`: find a matching user; the first
component is the returned error message (`none` on success), the second
the matched user. -/
def login (email password : String) (users : List StoredUser) :
    Option String × Option StoredUser :=
  match users.find? (loginPred email password) with
  | none => (some ("Invalid email or password"), none)
  | some u => (none, some u)

/-- The stored emails, lowercased, used to state the case-insensitive
uniqueness invariant. -/
def emailsLowered (users : List StoredUser) : List (List Char) :=
  users.map (fun u => mapLower u.email.data)

/-- Error object returned by the identity provider's invite call. -/
structure InviteError where
  message : String
  status : Option Nat
deriving DecidableEq

/-- Success payload of the invite call (`data.user.id`). -/
structure InviteData where
  userId : String
deriving DecidableEq

/-- Result of `supabase.auth.admin.inviteUserByEmail`. -/
inductive InviteResult where
  | ok (d : InviteData)
  | err (e : InviteError)
deriving DecidableEq

/-- The parts of the Vercel request the webhook handler reads. -/
structure WebhookReq where
  method : String
  querySecret : Option String
  bodyEmail : Option String
  bodyName : Option String
deriving DecidableEq

/-- The server environment values the webhook handler reads. -/
structure Env where
  kajabiWebhookSecret : Option String
  viteSupabaseUrl : Option String
  supabaseServiceRoleKey : Option String
  siteUrl : Option String
deriving DecidableEq

/-- Response of the webhook handler: HTTP status, the `error` and
`message` JSON fields, the returned user id, plus an instrumentation flag
recording whether control reached the provider's invite call. -/
structure HandlerResult where
  status : Nat
  error : Option String
  message : Option String
  userId : Option String
  inviteCalled : Bool
deriving DecidableEq

/-- The secret gate `!secret || secret !== process.env.KAJABI_WEBHOOK_SECRET`
passes exactly when the query secret is a nonempty string equal to the
configured value. -/
def secretOk (req : WebhookReq) (env : Env) : Bool :=
  match req.querySecret with
  | none => false
  | some s => !(s = ("") : Bool) && (env.kajabiWebhookSecret = some s : Bool)

/-- Truthiness of an optional environment value (`undefined` and the
empty string are falsy). -/
def envPresent (o : Option String) : Bool :=
  match o with
  | none => false
  | some v => !(v = ("") : Bool)

/-- The invite redirect target: `process.env.SITE_URL` with a hard-coded
fallback when unset or empty. -/
def siteUrlOf (env : Env) : String :=
  match env.siteUrl with
  | some u => if u = ("") then ("https://lmia-search-ui.vercel.app") else u
  | none => ("https://lmia-search-ui.vercel.app")

/-- Tail of the webhook handler after the invite call returns: the
already-exists error (message containing "already" or status 422) is
reported as a 200 with an informational message, any other error as a
500, and success as a 200 carrying the new user id. -/
def inviteOutcome (res : InviteResult) : HandlerResult :=
  match res with
  | InviteResult.err e =>
    if hasSub (("already").data) e.message.data = true ∨ e.status = some 422 then
      { status := 200, error := none,
        message := some ("User already exists, skipping invite"),
        userId := none, inviteCalled := true }
    else
      { status := 500, error := some ("Failed to invite user"),
        message := none, userId := none, inviteCalled := true }
  | InviteResult.ok d =>
    { status := 200, error := none,
      message := some ("User invited successfully"),
      userId := some d.userId, inviteCalled := true }

/-- Model of the webhook handler (`part_000`).  The provider's invite
operation is a function parameter taking the email, redirect target and
name; it is consulted only on the success path, and `inviteCalled`
records whether that happened.  The body email is falsy (`!email`)
exactly when it is absent or empty. -/
def handler (req : WebhookReq) (env : Env)
    (invite : String → String → String → InviteResult) : HandlerResult :=
  if req.method ≠ ("POST") then
    { status := 405, error := some ("Method not allowed"), message := none,
      userId := none, inviteCalled := false }
  else if secretOk req env = false then
    { status := 401, error := some ("Unauthorized"), message := none,
      userId := none, inviteCalled := false }
  else if envPresent env.viteSupabaseUrl = false ∨
      envPresent env.supabaseServiceRoleKey = false then
    { status := 500, error := some ("Server misconfigured"), message := none,
      userId := none, inviteCalled := false }
  else if req.bodyEmail = none ∨ req.bodyEmail = some ("") then
    { status := 400, error := some ("Missing email in webhook payload"),
      message := none, userId := none, inviteCalled := false }
  else
    inviteOutcome
      (invite (req.bodyEmail.getD ("")) (siteUrlOf env) (req.bodyName.getD ("")))

theorem isDigit_iff_toNat (c : Char) :
    Char.isDigit c = true ↔ 48 ≤ c.toNat ∧ c.toNat ≤ 57 := by
  unfold Char.isDigit
  simp [UInt32.le_def, Char.toNat, UInt32.toNat, BitVec.le_def]

theorem takeWhile_eq_self_of_all {p : Char → Bool} {l : List Char}
    (h : ∀ x ∈ l, p x = true) : l.takeWhile p = l := by
  induction l with
  | nil => rfl
  | cons a t ih =>
    rw [List.takeWhile_cons, if_pos (h a (by simp))]
    rw [ih (fun x hx => h x (by simp [hx]))]

theorem parseUnsigned_of_digits (l : List Char) (hne : l ≠ [])
    (hall : ∀ x ∈ l, Char.isDigit x = true) :
    parseUnsigned l = some (digitsVal l) := by
  have hdec : decPart l = some (digitsVal l) := by
    unfold decPart
    rw [takeWhile_eq_self_of_all hall, if_neg (by simp [hne])]
  unfold parseUnsigned
  split
  · rename_i c2 t2
    have hc2 : Char.isDigit c2 = true := hall c2 (by simp)
    rw [isDigit_iff_toNat] at hc2
    rw [if_neg]
    · exact hdec
    · have h120 : ('x' : Char).toNat = 120 := by decide
      have h88 : ('X' : Char).toNat = 88 := by decide
      rintro (hx | hx) <;> rw [char_eq_iff_toNat] at hx <;> omega
  · exact hdec

theorem jsParseInt_of_digits {m : String} (h : isDigitStr m = true) :
    jsParseInt m = some ((digitsVal m.data : Nat) : Int) := by
  unfold isDigitStr at h
  rw [Bool.and_eq_true] at h
  obtain ⟨hne, hall⟩ := h
  rw [List.all_eq_true] at hall
  obtain ⟨c, t, hct⟩ : ∃ c t, m.data = c :: t := by
    cases hm : m.data with
    | nil => rw [hm] at hne; simp at hne
    | cons c t => exact ⟨c, t, rfl⟩
  have hcd : Char.isDigit c = true := hall c (by rw [hct]; simp)
  rw [isDigit_iff_toNat] at hcd
  have hdrop : m.data.dropWhile jsSpace = m.data := by
    rw [hct, List.dropWhile_cons, if_neg]
    simp only [jsSpace, decide_eq_true_eq]
    unfold spaceP
    omega
  have hpu : parseUnsigned m.data = some (digitsVal m.data) :=
    parseUnsigned_of_digits m.data (by rw [hct]; simp)
      (fun x hx => hall x hx)
  unfold jsParseInt
  rw [hdrop, hct]
  split
  · rename_i heq
    exact absurd heq (by simp)
  · rename_i c2 t2 heq
    injection heq with h1 h2
    have hcm : ¬ c2 = '-' := by
      intro he
      rw [char_eq_iff_toNat] at he
      have : ('-' : Char).toNat = 45 := by decide
      rw [← h1] at he
      omega
    have hcp : ¬ c2 = '+' := by
      intro he
      rw [char_eq_iff_toNat] at he
      have : ('+' : Char).toNat = 43 := by decide
      rw [← h1] at he
      omega
    rw [if_neg hcm, if_neg hcp]
    rw [show (c2 :: t2) = m.data by rw [hct, h1, h2], hpu]
    simp [hct]

theorem one_le_minLMIAsNum_of_wellFormed {m : String}
    (h : m = ("") ∨ isDigitStr m = true) : 1 ≤ minLMIAsNum m := by
  rcases h with h | h
  · rw [h]; decide
  · have hk : jsParseInt m = some ((digitsVal m.data : Nat) : Int) :=
      jsParseInt_of_digits h
    unfold minLMIAsNum
    rw [hk]
    show 1 ≤ if ((digitsVal m.data : Nat) : Int) = 0 then 1 else ((digitsVal m.data : Nat) : Int)
    split <;> omega

theorem recordPasses_iff (e p c s : String) (n : Int) (r : LMIARecord) :
    recordPasses e p c s n r = true ↔
      (p = ("ALL") ∨ r.province = some p) ∧
      (c = ("ALL") ∨ r.city = some c) ∧
      (s = ("ALL") ∨ r.programStream = some s) ∧
      n ≤ r.positiveLMIAs.getD 0 ∧
      (listTrim e.data = [] ∨
        hasSub (mapLower (listTrim e.data))
          (mapLower ((r.employerName.getD ("")).data)) = true) := by
  unfold recordPasses
  split_ifs with h1 h2 h3 h4 h5 <;>
    simp_all [not_and_or, not_lt] <;> tauto

theorem length_filter_mono {α : Type} (p q : α → Bool) (l : List α)
    (h : ∀ a, p a = true → q a = true) :
    (l.filter p).length ≤ (l.filter q).length := by
  induction l with
  | nil => simp
  | cons a t ih =>
    rw [List.filter_cons, List.filter_cons]
    by_cases hp : p a = true
    · rw [if_pos hp, if_pos (h a hp)]
      simpa using ih
    · rw [if_neg hp]
      by_cases hq : q a = true
      · rw [if_pos hq]
        exact Nat.le_trans ih (Nat.le_succ _)
      · rw [if_neg hq]
        exact ih

/-- Sample record with a positive approval count, used by witnesses. -/
def sampleRecPos : LMIARecord :=
  { employerName := some ("Acme Ltd"), city := some ("Toronto"),
    province := some ("ON"), programStream := some ("Stream A"),
    positiveLMIAs := some 3 }

/-- Sample record with an approval count of zero, used by witnesses. -/
def sampleRecZero : LMIARecord :=
  { employerName := some ("Beta Inc"), city := some ("Calgary"),
    province := some ("AB"), programStream := some ("Stream B"),
    positiveLMIAs := some 0 }

/-- C1: applying the minimum-approvals filter with threshold input "0"
produces exactly the same filtered subset as with threshold input "1";
the parsed threshold of "0" (and of the empty string or any non-numeric
string) is 1, so records with an approval count of 0 are excluded. -/
theorem c1_min_threshold_zero_eq_one :
    (∀ rows e p c s, filtered rows e p c s ("0") = filtered rows e p c s ("1")) ∧
    minLMIAsNum ("0") = 1 ∧ minLMIAsNum ("") = 1 ∧
    (∀ v, jsParseInt v = none → minLMIAsNum v = 1) ∧
    (∀ rows e p c s r, r ∈ filtered rows e p c s ("0") →
      ¬ r.positiveLMIAs.getD 0 = 0) := by
  refine ⟨?_, by decide, by decide, ?_, ?_⟩
  · intro rows e p c s
    unfold filtered
    rw [show minLMIAsNum ("0") = minLMIAsNum ("1") from by decide]
  · intro v h
    unfold minLMIAsNum
    rw [h]
  · intro rows e p c s r hr h0
    unfold filtered at hr
    have hp := List.of_mem_filter hr
    rw [recordPasses_iff] at hp
    have h4 := hp.2.2.2.1
    rw [h0, show minLMIAsNum ("0") = 1 from by decide] at h4
    omega

/-- Witness for C1 at concrete inputs. -/
theorem c1_min_threshold_zero_eq_one_witness :
    filtered [sampleRecZero] ("") ("ALL") ("ALL") ("ALL") ("0") =
      filtered [sampleRecZero] ("") ("ALL") ("ALL") ("ALL") ("1") ∧
    minLMIAsNum ("abc") = 1 ∧
    ¬ sampleRecZero ∈ filtered [sampleRecZero] ("") ("ALL") ("ALL") ("ALL") ("0") :=
  ⟨c1_min_threshold_zero_eq_one.1 [sampleRecZero] ("") ("ALL") ("ALL") ("ALL"),
   c1_min_threshold_zero_eq_one.2.2.2.1 ("abc") (by decide),
   fun hmem =>
     c1_min_threshold_zero_eq_one.2.2.2.2 [sampleRecZero] ("") ("ALL") ("ALL")
       ("ALL") sampleRecZero hmem (by decide)⟩

/-- C6: filtering is monotonically restrictive; activating any single
criterion (employer text, province, city, stream, or a well-formed
minimum threshold) can only shrink the filtered subset relative to that
criterion's inactive value. -/
theorem c6_filter_monotone (rows : List LMIARecord) (e p c s m : String) :
    ((filtered rows e p c s m).length ≤ (filtered rows ("") p c s m).length) ∧
    ((filtered rows e p c s m).length ≤ (filtered rows e ("ALL") c s m).length) ∧
    ((filtered rows e p c s m).length ≤ (filtered rows e p ("ALL") s m).length) ∧
    ((filtered rows e p c s m).length ≤ (filtered rows e p c ("ALL") m).length) ∧
    ((m = ("") ∨ isDigitStr m = true) →
      (filtered rows e p c s m).length ≤ (filtered rows e p c s ("1")).length) := by
  refine ⟨?_, ?_, ?_, ?_, ?_⟩
  · apply length_filter_mono
    intro r hr
    rw [recordPasses_iff] at hr ⊢
    exact ⟨hr.1, hr.2.1, hr.2.2.1, hr.2.2.2.1, Or.inl rfl⟩
  · apply length_filter_mono
    intro r hr
    rw [recordPasses_iff] at hr ⊢
    exact ⟨Or.inl rfl, hr.2.1, hr.2.2.1, hr.2.2.2.1, hr.2.2.2.2⟩
  · apply length_filter_mono
    intro r hr
    rw [recordPasses_iff] at hr ⊢
    exact ⟨hr.1, Or.inl rfl, hr.2.2.1, hr.2.2.2.1, hr.2.2.2.2⟩
  · apply length_filter_mono
    intro r hr
    rw [recordPasses_iff] at hr ⊢
    exact ⟨hr.1, hr.2.1, Or.inl rfl, hr.2.2.2.1, hr.2.2.2.2⟩
  · intro hm
    apply length_filter_mono
    intro r hr
    rw [recordPasses_iff] at hr ⊢
    refine ⟨hr.1, hr.2.1, hr.2.2.1, ?_, hr.2.2.2.2⟩
    have h1 := one_le_minLMIAsNum_of_wellFormed hm
    have h4 := hr.2.2.2.1
    rw [show minLMIAsNum ("1") = 1 from by decide]
    omega

/-- Witness for C6 at concrete inputs. -/
theorem c6_filter_monotone_witness :
    (filtered [sampleRecPos] ("acme") ("ON") ("Toronto") ("Stream A") ("2")).length ≤
      (filtered [sampleRecPos] ("acme") ("ON") ("Toronto") ("Stream A") ("1")).length :=
  (c6_filter_monotone [sampleRecPos] ("acme") ("ON") ("Toronto") ("Stream A")
    ("2")).2.2.2.2 (Or.inr (by decide))

/-- C9: starting from the initial value "1", `handleMinLMIAsChange`
accepts a new value only when it is empty or digit-only, so after any
sequence of change events the stored threshold is empty or digit-only;
every accepted change resets the current page to 1, and a rejected change
leaves the state unchanged. -/
theorem c9_min_threshold_state_invariant :
    (∀ events : List String,
      (events.foldl (fun st v => handleMinLMIAsChange v st)
          initialExplorerState).minLMIAs = ("") ∨
      isDigitStr ((events.foldl (fun st v => handleMinLMIAsChange v st)
          initialExplorerState).minLMIAs) = true) ∧
    (∀ st v, (v = ("") ∨ isDigitStr v = true) →
      handleMinLMIAsChange v st = { minLMIAs := v, currentPage := 1 }) ∧
    (∀ st v, ¬ (v = ("") ∨ isDigitStr v = true) →
      handleMinLMIAsChange v st = st) := by
  refine ⟨?_, ?_, ?_⟩
  · intro events
    suffices h : ∀ st : ExplorerState,
        (st.minLMIAs = ("") ∨ isDigitStr st.minLMIAs = true) →
        ((events.foldl (fun st v => handleMinLMIAsChange v st) st).minLMIAs = ("") ∨
          isDigitStr ((events.foldl (fun st v => handleMinLMIAsChange v st)
            st).minLMIAs) = true) by
      exact h initialExplorerState (Or.inr (by decide))
    induction events with
    | nil => intro st h; exact h
    | cons v vs ih =>
      intro st h
      rw [List.foldl_cons]
      apply ih
      unfold handleMinLMIAsChange
      split
      · rename_i hv
        exact hv
      · exact h
  · intro st v hv
    unfold handleMinLMIAsChange
    rw [if_pos hv]
  · intro st v hv
    unfold handleMinLMIAsChange
    rw [if_neg hv]

/-- Witness for C9 at concrete inputs. -/
theorem c9_min_threshold_state_invariant_witness :
    ((([("5"), ("x!"), ("")] : List String).foldl
        (fun st v => handleMinLMIAsChange v st)
        initialExplorerState).minLMIAs = ("") ∨
      isDigitStr ((([("5"), ("x!"), ("")] : List String).foldl
        (fun st v => handleMinLMIAsChange v st)
        initialExplorerState).minLMIAs) = true) ∧
    handleMinLMIAsChange ("42") { minLMIAs := ("1"), currentPage := 7 } =
      { minLMIAs := ("42"), currentPage := 1 } ∧
    handleMinLMIAsChange ("4a") { minLMIAs := ("1"), currentPage := 7 } =
      { minLMIAs := ("1"), currentPage := 7 } :=
  ⟨c9_min_threshold_state_invariant.1 [("5"), ("x!"), ("")],
   c9_min_threshold_state_invariant.2.1 { minLMIAs := ("1"), currentPage := 7 }
     ("42") (Or.inr (by decide)),
   c9_min_threshold_state_invariant.2.2 { minLMIAs := ("1"), currentPage := 7 }
     ("4a") (by decide)⟩

/-- C3 (counterexample): "toront" is a valid city string whose
normalization is "Toront" (itself valid), but normalizing again applies
the exact-key correction `Toront → Toronto`, so `normalizeCityName` is
not idempotent on valid city strings. -/
theorem c3_normalize_not_idempotent_counterexample :
    isValidCityName ("toront") = true ∧
    normalizeCityName ("toront") = ("Toront") ∧
    isValidCityName ("Toront") = true ∧
    normalizeCityName (normalizeCityName ("toront")) = ("Toronto") ∧
    normalizeCityName (normalizeCityName ("toront")) ≠
      normalizeCityName ("toront") := by
  refine ⟨by decide, by decide, by decide, by decide, by decide⟩

/-- C3 (amended): for every valid city string whose normalized form is
not an exact key of the correction table, normalization is idempotent:
normalizing the already-normalized string returns it unchanged. -/
theorem c3_normalize_idem_of_not_correction_key (c : String)
    (hv : isValidCityName c = true)
    (hk : isCorrectionKey (normalizeCityName c).data = false) :
    normalizeCityName (normalizeCityName c) = normalizeCityName c := by
  have hval := hv
  unfold normalizeCityName
  rw [show (String.mk (normalizeCityList c.data)).data =
    normalizeCityList c.data from rfl]
  rw [normalizeCityList_idem c.data hk]

/-- Witness for the amended C3 at a concrete input. -/
theorem c3_normalize_idem_witness :
    normalizeCityName (normalizeCityName ("Vancouver")) =
      normalizeCityName ("Vancouver") :=
  c3_normalize_idem_of_not_correction_key ("Vancouver") (by decide) (by decide)

theorem flatten_range_take (l : List LMIARecord) (size : Nat) (n : Nat) :
    ((List.range n).map (fun k => (l.drop (k * size)).take size)).flatten =
      l.take (n * size) := by
  induction n with
  | zero => simp
  | succ n ih =>
    rw [List.range_succ, List.map_append, List.flatten_append, ih]
    simp only [List.map_cons, List.map_nil, List.flatten_cons, List.flatten_nil,
      List.append_nil]
    rw [Nat.succ_mul, List.take_add]

theorem count_le_totalPages_mul (count size : Nat) (h : 0 < size) :
    count ≤ totalPages count size * size := by
  unfold totalPages
  have hdm := Nat.div_add_mod (count + size - 1) size
  have hml : (count + size - 1) % size < size := Nat.mod_lt _ h
  have hA : count ≤ size * ((count + size - 1) / size) := by omega
  calc count ≤ size * ((count + size - 1) / size) := hA
    _ = ((count + size - 1) / size) * size := Nat.mul_comm _ _
    _ ≤ (max 1 ((count + size - 1) / size)) * size :=
        Nat.mul_le_mul_right _ (Nat.le_max_right _ _)

/-- C4: pagination partitions the filtered subset: concatenating the
slices for pages 1 through the page count, in order, yields exactly the
filtered list, with no element missing and none repeated. -/
theorem c4_pagination_partitions (rows : List LMIARecord)
    (e p c s m : String) (size : Nat) (h : 0 < size) :
    ((List.range (totalPages (filtered rows e p c s m).length size)).map
      (fun k => paginatedData (filtered rows e p c s m) size (k + 1))).flatten =
      filtered rows e p c s m := by
  have hfun : (fun k => paginatedData (filtered rows e p c s m) size (k + 1)) =
      (fun k => ((filtered rows e p c s m).drop (k * size)).take size) := by
    funext k
    rfl
  rw [hfun, flatten_range_take]
  exact List.take_of_length_le
    (count_le_totalPages_mul (filtered rows e p c s m).length size h)

/-- Witness for C4 at concrete inputs. -/
theorem c4_pagination_partitions_witness :
    ((List.range (totalPages
        (filtered [sampleRecPos, sampleRecZero] ("") ("ALL") ("ALL") ("ALL")
          ("0")).length 50)).map
      (fun k => paginatedData
        (filtered [sampleRecPos, sampleRecZero] ("") ("ALL") ("ALL") ("ALL")
          ("0")) 50 (k + 1))).flatten =
      filtered [sampleRecPos, sampleRecZero] ("") ("ALL") ("ALL") ("ALL") ("0") :=
  c4_pagination_partitions [sampleRecPos, sampleRecZero] ("") ("ALL") ("ALL")
    ("ALL") ("0") 50 (by decide)

/-- C5 (counterexample): the `LMIAExplorer.tsx` variant computes the page
count as plain `Math.ceil(filtered.length / rowsPerPage)`, which is 0 for
an empty filtered subset, contradicting the claimed minimum of 1. -/
theorem c5_totalPagesTsx_zero_counterexample :
    totalPagesTsx (filtered [] ("") ("ALL") ("ALL") ("ALL") ("1")).length 50 = 0 ∧
    ¬ 1 ≤ totalPagesTsx (filtered [] ("") ("ALL") ("ALL") ("ALL") ("1")).length 50 ∧
    totalPages (filtered [] ("") ("ALL") ("ALL") ("ALL") ("1")).length 50 = 1 := by
  refine ⟨by decide, by decide, by decide⟩

/-- C5 (amended): the `part_004` page count `totalPages` is the ceiling of
count/size with a minimum of 1 (characterized by its bounds), and is 1 on
an empty subset; the `LMIAExplorer.tsx` variant `totalPagesTsx` agrees
with it for nonempty subsets but is 0 on an empty one. -/
theorem c5_page_count_amended (count size : Nat) (h : 0 < size) :
    count ≤ totalPages count size * size ∧
    (1 < totalPages count size → (totalPages count size - 1) * size < count) ∧
    1 ≤ totalPages count size ∧
    (count = 0 → totalPages count size = 1) ∧
    (0 < count → totalPagesTsx count size = totalPages count size) ∧
    totalPagesTsx 0 size = 0 := by
  have hdm := Nat.div_add_mod (count + size - 1) size
  have hml : (count + size - 1) % size < size := Nat.mod_lt _ h
  refine ⟨count_le_totalPages_mul count size h, ?_, ?_, ?_, ?_, ?_⟩
  · intro hq
    unfold totalPages at hq ⊢
    set q := (count + size - 1) / size with hqdef
    have hqe : max 1 q = q := Nat.max_eq_right (by omega)
    rw [hqe] at hq ⊢
    by_contra hc
    push_neg at hc
    have hsub : (q - 1) * size = q * size - 1 * size := Nat.sub_mul _ _ _
    have hcomm : size * q = q * size := Nat.mul_comm _ _
    have h2s : 2 * size ≤ q * size := Nat.mul_le_mul_right size (by omega)
    have hbound : count + size - 1 < q * size := by omega
    have hlt : q < q := (Nat.div_lt_iff_lt_mul h).mpr hbound
    omega
  · exact Nat.le_max_left _ _
  · intro hc
    subst hc
    unfold totalPages
    have : (0 + size - 1) / size = 0 := Nat.div_eq_of_lt (by omega)
    omega
  · intro hc
    unfold totalPages totalPagesTsx
    have hpos : 0 < (count + size - 1) / size := by
      apply Nat.div_pos (by omega) h
    omega
  · unfold totalPagesTsx
    exact Nat.div_eq_of_lt (by omega)

/-- Witness for the amended C5 at concrete inputs. -/
theorem c5_page_count_amended_witness :
    101 ≤ totalPages 101 50 * 50 ∧ 1 ≤ totalPages 101 50 ∧
    (0 = 0 → totalPages 0 50 = 1) ∧ totalPagesTsx 0 50 = 0 :=
  ⟨(c5_page_count_amended 101 50 (by decide)).1,
   (c5_page_count_amended 101 50 (by decide)).2.2.1,
   (c5_page_count_amended 0 50 (by decide)).2.2.2.1,
   (c5_page_count_amended 0 50 (by decide)).2.2.2.2.2⟩

theorem length_filter_loginPred_le_one {users : List StoredUser}
    (h : (emailsLowered users).Nodup) (e pw : String) :
    (users.filter (loginPred e pw)).length ≤ 1 := by
  induction users with
  | nil => simp
  | cons u t ih =>
    unfold emailsLowered at h
    rw [List.map_cons, List.nodup_cons] at h
    obtain ⟨hnotmem, hnd⟩ := h
    rw [List.filter_cons]
    by_cases hu : loginPred e pw u = true
    · rw [if_pos hu]
      have hempty : t.filter (loginPred e pw) = [] := by
        rw [List.filter_eq_nil_iff]
        intro v hv hpv
        unfold loginPred at hu hpv
        rw [Bool.and_eq_true, decide_eq_true_eq, decide_eq_true_eq] at hu hpv
        exact hnotmem (List.mem_map.mpr ⟨v, hv, by rw [hpv.1, hu.1]⟩)
      rw [hempty]
      simp
    · rw [if_neg hu]
      exact ih hnd

/-- C10 (counterexample): the duplicate check in `signup` compares the
untrimmed email, but the stored email is trimmed and lowercased, so
signing up " a@b.com" after "a@b.com" succeeds and stores two users with
the same lowercased email. -/
theorem c10_signup_duplicate_counterexample :
    (signup ("n") ("a@b.com") ("secret1") []).1 = none ∧
    (signup ("n") (" a@b.com") ("secret1")
      (signup ("n") ("a@b.com") ("secret1") []).2).1 = none ∧
    ¬ (emailsLowered (signup ("n") (" a@b.com") ("secret1")
      (signup ("n") ("a@b.com") ("secret1") []).2).2).Nodup := by
  refine ⟨by decide, by decide, by decide⟩

/-- C10 (amended): provided signup is invoked with an already-trimmed
email, the stored list never acquires two users whose emails are equal
ignoring case: signup rejects (without modifying the store) any email
that case-insensitively matches a stored user, on success stores the
email trimmed and lowercased, and under the uniqueness invariant the
login lookup matches at most one stored user. -/
theorem c10_signup_unique_emails_amended (users : List StoredUser)
    (n e pw : String) :
    ((emailsLowered users).Nodup → listTrim e.data = e.data →
      (emailsLowered (signup n e pw users).2).Nodup) ∧
    (users.any (fun u => mapLower u.email.data = mapLower e.data) = true →
      (signup n e pw users).2 = users ∧ (signup n e pw users).1 ≠ none) ∧
    ((emailsLowered users).Nodup → ∀ pw2,
      (users.filter (loginPred e pw2)).length ≤ 1) := by
  refine ⟨?_, ?_, ?_⟩
  · intro hnd htrim
    unfold signup
    split_ifs with h1 h2 h3 h4
    · exact hnd
    · exact hnd
    · exact hnd
    · exact hnd
    · show (emailsLowered (users ++ [_])).Nodup
      unfold emailsLowered
      rw [List.map_append, List.map_cons, List.map_nil]
      have hnew : mapLower ((String.mk (mapLower (listTrim e.data))).data) =
          mapLower e.data := by
        rw [show (String.mk (mapLower (listTrim e.data))).data =
          mapLower (listTrim e.data) from rfl, mapLower_mapLower, htrim]
      refine List.Nodup.append hnd (List.nodup_singleton _) ?_
      intro a ha hb
      rw [List.mem_singleton] at hb
      rw [hb, hnew] at ha
      rw [List.any_eq_true] at h4
      push_neg at h4
      obtain ⟨v, hv, hveq⟩ := List.mem_map.mp ha
      exact absurd (by rw [← hveq] : mapLower v.email.data = mapLower e.data)
        (by simpa using h4 v hv)
  · intro hany
    unfold signup
    split_ifs with h1 h2 h3
    · exact ⟨rfl, by simp⟩
    · exact ⟨rfl, by simp⟩
    · exact ⟨rfl, by simp⟩
    · exact ⟨rfl, by simp⟩
  · intro hnd pw2
    exact length_filter_loginPred_le_one hnd e pw2

/-- Witness for the amended C10 at concrete inputs. -/
theorem c10_signup_unique_emails_amended_witness :
    (emailsLowered (signup ("n") ("a@b.com") ("secret1") []).2).Nodup ∧
    ((signup ("x") ("A@B.com") ("secret2")
        [{ name := ("n"), email := ("a@b.com"), password := ("secret1") }]).2 =
      [{ name := ("n"), email := ("a@b.com"), password := ("secret1") }] ∧
     (signup ("x") ("A@B.com") ("secret2")
        [{ name := ("n"), email := ("a@b.com"), password := ("secret1") }]).1 ≠
       none) ∧
    ([({ name := ("n"), email := ("a@b.com"), password := ("secret1") } :
        StoredUser)].filter (loginPred ("a@b.com") ("secret1"))).length ≤ 1 :=
  ⟨(c10_signup_unique_emails_amended [] ("n") ("a@b.com") ("secret1")).1
      (by decide) (by decide),
   (c10_signup_unique_emails_amended
      [{ name := ("n"), email := ("a@b.com"), password := ("secret1") }]
      ("x") ("A@B.com") ("secret2")).2.1 (by decide),
   (c10_signup_unique_emails_amended
      [{ name := ("n"), email := ("a@b.com"), password := ("secret1") }]
      ("z") ("a@b.com") ("w")).2.2 (by decide) ("secret1")⟩

theorem secretOk_iff (req : WebhookReq) (env : Env) :
    secretOk req env = true ↔
      ∃ s, req.querySecret = some s ∧ s ≠ ("") ∧
        env.kajabiWebhookSecret = some s := by
  unfold secretOk
  cases hq : req.querySecret with
  | none => simp
  | some s =>
    simp only [Bool.and_eq_true, Bool.not_eq_true', decide_eq_false_iff_not,
      decide_eq_true_eq, Option.some.injEq]
    constructor
    · intro h
      exact ⟨s, rfl, h.1, h.2⟩
    · rintro ⟨s2, hs2, hne, henv⟩
      subst hs2
      exact ⟨hne, henv⟩

/-- C2: for a POST request carrying the correct shared secret and an
email in the body, whenever the handler actually performs the provider's
invite call and that call returns an error whose message contains the
substring "already" or whose status code is 422, the handler responds
HTTP 200 with the informational already-exists message, not an error. -/
theorem c2_webhook_already_exists_ok (req : WebhookReq) (env : Env)
    (invite : String → String → String → InviteResult) (e : String)
    (er : InviteError)
    (hm : req.method = ("POST"))
    (hs : secretOk req env = true)
    (he : req.bodyEmail = some e)
    (hcalled : (handler req env invite).inviteCalled = true)
    (hinv : invite e (siteUrlOf env) (req.bodyName.getD ("")) =
      InviteResult.err er)
    (hal : hasSub (("already").data) er.message.data = true ∨
      er.status = some 422) :
    (handler req env invite).status = 200 ∧
    (handler req env invite).message =
      some ("User already exists, skipping invite") ∧
    (handler req env invite).error = none := by
  unfold handler at hcalled ⊢
  rw [if_neg (show ¬ req.method ≠ ("POST") by simp [hm])] at hcalled ⊢
  rw [if_neg (show ¬ secretOk req env = false by simp [hs])] at hcalled ⊢
  by_cases h3 : envPresent env.viteSupabaseUrl = false ∨
      envPresent env.supabaseServiceRoleKey = false
  · rw [if_pos h3] at hcalled
    simp at hcalled
  · rw [if_neg h3] at hcalled ⊢
    by_cases h4 : req.bodyEmail = none ∨ req.bodyEmail = some ("")
    · rw [if_pos h4] at hcalled
      simp at hcalled
    · rw [if_neg h4] at hcalled ⊢
      have hge : req.bodyEmail.getD ("") = e := by rw [he]; rfl
      rw [hge, hinv]
      simp only [inviteOutcome]
      rw [if_pos hal]
      exact ⟨rfl, rfl, rfl⟩

/-- Concrete request used by the webhook witnesses: a POST carrying the
secret "s" and an email. -/
def reqWithEmail : WebhookReq :=
  { method := ("POST"), querySecret := some ("s"),
    bodyEmail := some ("a@b.com"), bodyName := none }

/-- Concrete fully-configured environment used by the webhook witnesses. -/
def envFull : Env :=
  { kajabiWebhookSecret := some ("s"), viteSupabaseUrl := some ("u"),
    supabaseServiceRoleKey := some ("k"), siteUrl := none }

/-- Concrete already-registered provider error. -/
def errAlready : InviteError :=
  { message := ("User already registered"), status := some 422 }

/-- Concrete invite operation that always reports the user as already
registered. -/
def inviteAlready : String → String → String → InviteResult :=
  fun _ _ _ => InviteResult.err errAlready

/-- Concrete invite operation that always succeeds. -/
def inviteOk : String → String → String → InviteResult :=
  fun _ _ _ => InviteResult.ok { userId := ("uid-1") }

/-- Witness for C2 at concrete inputs. -/
theorem c2_webhook_already_exists_ok_witness :
    (handler reqWithEmail envFull inviteAlready).status = 200 ∧
    (handler reqWithEmail envFull inviteAlready).message =
      some ("User already exists, skipping invite") ∧
    (handler reqWithEmail envFull inviteAlready).error = none :=
  c2_webhook_already_exists_ok reqWithEmail envFull inviteAlready
    ("a@b.com") errAlready (by decide) (by decide) (by decide) (by decide)
    (by decide) (Or.inr (by decide))

/-- Concrete POST request with correct secret but no email, used by the
C7 counterexample and witness. -/
def reqNoEmail : WebhookReq :=
  { method := ("POST"), querySecret := some ("s"),
    bodyEmail := none, bodyName := none }

/-- Concrete environment with the backing-store URL unset. -/
def envNoUrl : Env :=
  { kajabiWebhookSecret := some ("s"), viteSupabaseUrl := none,
    supabaseServiceRoleKey := some ("k"), siteUrl := none }

/-- C7 (counterexample): a POST with a correct secret and no email is
answered 500, not 400, when the backing-store URL environment value is
missing — the misconfiguration check runs before the email check. -/
theorem c7_missing_email_500_counterexample :
    (handler reqNoEmail envNoUrl inviteOk).status = 500 ∧
    ¬ (handler reqNoEmail envNoUrl inviteOk).status = 400 := by
  refine ⟨by decide, by decide⟩

/-- C7 (amended): the handler checks requests in order: any non-POST
gets 405; a POST with a missing or mismatched secret gets 401; a POST
with a correct secret, with the backing-store configuration present, but
with no email (absent or empty) in the body gets 400; and no invite call
is made in any of these failure cases. -/
theorem c7_handler_check_order_amended (req : WebhookReq) (env : Env)
    (invite : String → String → String → InviteResult) :
    (req.method ≠ ("POST") →
      (handler req env invite).status = 405 ∧
      (handler req env invite).inviteCalled = false) ∧
    (req.method = ("POST") → secretOk req env = false →
      (handler req env invite).status = 401 ∧
      (handler req env invite).inviteCalled = false) ∧
    (req.method = ("POST") → secretOk req env = true →
      envPresent env.viteSupabaseUrl = true →
      envPresent env.supabaseServiceRoleKey = true →
      (req.bodyEmail = none ∨ req.bodyEmail = some ("")) →
      (handler req env invite).status = 400 ∧
      (handler req env invite).inviteCalled = false) := by
  refine ⟨?_, ?_, ?_⟩
  · intro hm
    unfold handler
    rw [if_pos hm]
    exact ⟨rfl, rfl⟩
  · intro hm hs
    unfold handler
    rw [if_neg (show ¬ req.method ≠ ("POST") by simp [hm]), if_pos hs]
    exact ⟨rfl, rfl⟩
  · intro hm hs hu hk he
    unfold handler
    rw [if_neg (show ¬ req.method ≠ ("POST") by simp [hm]),
      if_neg (show ¬ secretOk req env = false by simp [hs]),
      if_neg (show ¬ (envPresent env.viteSupabaseUrl = false ∨
        envPresent env.supabaseServiceRoleKey = false) by simp [hu, hk]),
      if_pos he]
    exact ⟨rfl, rfl⟩

/-- Concrete GET request carrying some secret, used by the C8
counterexample. -/
def reqGet : WebhookReq :=
  { method := ("GET"), querySecret := some ("x"),
    bodyEmail := none, bodyName := none }

/-- Witness for the amended C7 at concrete inputs. -/
theorem c7_handler_check_order_amended_witness :
    ((handler reqGet envFull inviteOk).status = 405 ∧
      (handler reqGet envFull inviteOk).inviteCalled = false) ∧
    ((handler reqNoEmail envFull inviteOk).status = 400 ∧
      (handler reqNoEmail envFull inviteOk).inviteCalled = false) :=
  ⟨(c7_handler_check_order_amended reqGet envFull inviteOk).1 (by decide),
   (c7_handler_check_order_amended reqNoEmail envFull inviteOk).2.2
      (by decide) (by decide) (by decide) (by decide) (Or.inl (by decide))⟩

/-- Concrete environment with the webhook shared secret unset. -/
def envNoSecret : Env :=
  { kajabiWebhookSecret := none, viteSupabaseUrl := some ("u"),
    supabaseServiceRoleKey := some ("k"), siteUrl := none }

/-- C8 (counterexample): with the shared-secret configuration unset, a
non-POST request is rejected 405, not 401 — so not every request is
answered 401. -/
theorem c8_get_request_405_counterexample :
    (handler reqGet envNoSecret inviteOk).status = 405 ∧
    ¬ (handler reqGet envNoSecret inviteOk).status = 401 := by
  refine ⟨by decide, by decide⟩

/-- C8 (amended): if the shared-secret configuration value is unset or
empty, every POST request — regardless of the secret query parameter it
carries — is rejected 401 rather than 500, with no invite call; and a
request is authorized exactly when the configured secret is a nonempty
value equal to the query parameter. -/
theorem c8_unset_secret_unauthorized_amended (req : WebhookReq) (env : Env)
    (invite : String → String → String → InviteResult) :
    ((env.kajabiWebhookSecret = none ∨ env.kajabiWebhookSecret = some ("")) →
      req.method = ("POST") →
      (handler req env invite).status = 401 ∧
      (handler req env invite).inviteCalled = false) ∧
    (secretOk req env = true ↔
      ∃ s, req.querySecret = some s ∧ s ≠ ("") ∧
        env.kajabiWebhookSecret = some s) ∧
    (req.method = ("POST") → (handler req env invite).status ≠ 401 →
      secretOk req env = true) := by
  have hiff := secretOk_iff req env
  refine ⟨?_, hiff, ?_⟩
  · intro henv hm
    have hsf : secretOk req env = false := by
      rw [Bool.eq_false_iff]
      intro htrue
      obtain ⟨s, _, hne, hks⟩ := hiff.mp htrue
      rcases henv with h | h <;> rw [h] at hks
      · exact Option.noConfusion hks
      · exact hne (by injection hks with hh; exact hh.symm)
    unfold handler
    rw [if_neg (show ¬ req.method ≠ ("POST") by simp [hm]), if_pos hsf]
    exact ⟨rfl, rfl⟩
  · intro hm hne
    by_cases hs : secretOk req env = true
    · exact hs
    · exfalso
      apply hne
      unfold handler
      rw [if_neg (show ¬ req.method ≠ ("POST") by simp [hm]),
        if_pos (by simpa using hs)]

/-- Witness for the amended C8 at concrete inputs. -/
theorem c8_unset_secret_unauthorized_amended_witness :
    ((handler reqWithEmail envNoSecret inviteOk).status = 401 ∧
      (handler reqWithEmail envNoSecret inviteOk).inviteCalled = false) ∧
    secretOk reqWithEmail envFull = true :=
  ⟨(c8_unset_secret_unauthorized_amended reqWithEmail envNoSecret inviteOk).1
      (Or.inl (by decide)) (by decide),
   (c8_unset_secret_unauthorized_amended reqWithEmail envFull inviteOk).2.1.mpr
      ⟨("s"), by decide, by decide, by decide⟩⟩
